import Mathlib

/-!
Verification development for the `dns-tools` DNS wire-format decoder.

Shallow embedding conventions:
* Rust `u8` values are `Nat` (byte values `< 256` in any run of the real code);
  Rust `u16` values are `Nat` built by `u16_from_be`.
* Byte slices `&[u8]` are `List Nat`; a Rust `String` label is represented by
  its byte sequence (`String::from_utf8` preserves the bytes).
* Fallible Rust functions returning `Result` become `Except`;
  a slice-indexing panic is the explicit `oob` outcome; the unbounded
  `loop` of `parse_question` is embedded with a fuel parameter, `none`
  meaning the fuel ran out (the source loop has not terminated).
-/

deriving instance DecidableEq for Except

namespace DnsTools

/-- Model of Rust `u8::is_ascii_alphabetic`. -/
def isAsciiAlphabetic (b : Nat) : Bool :=
  decide ((65 ≤ b ∧ b ≤ 90) ∨ (97 ≤ b ∧ b ≤ 122))

/-- Model of Rust `u8::is_ascii_digit`. -/
def isAsciiDigit (b : Nat) : Bool :=
  decide (48 ≤ b ∧ b ≤ 57)

/-- Model of Rust `u8::is_ascii_alphanumeric`. -/
def isAsciiAlphanumeric (b : Nat) : Bool :=
  isAsciiAlphabetic b || isAsciiDigit b

namespace DomainMod
/-! Embedding of `src/lib/src/domain.rs`. -/

def MAX_LABEL_LENGTH : Nat := 63

/-- `bytes_are_ldh_str` from `src/lib/src/domain.rs`. -/
def bytes_are_ldh_str (bytes : List Nat) : Bool :=
  bytes.all (fun b => isAsciiAlphanumeric b || b == 45)

/-- `bytes_are_label` from `src/lib/src/domain.rs`. The Rust locals are
inlined: `first_byte` is `bytes.take 1`, `remaining_bytes` is `bytes.drop 1`
(the `split_at(1)` pair), `middle_bytes` / `last_byte` are the
`split_at(len - 1)` pair of `remaining_bytes`; the index `first_byte[0]` /
`last_byte[0]` is `getD _ 0 0`, in bounds whenever it is reached. -/
def bytes_are_label (bytes : List Nat) : Bool :=
  if bytes.length = 0 ∨ bytes.length > MAX_LABEL_LENGTH then false
  else if (bytes.drop 1).length = 0 then
    isAsciiAlphabetic ((bytes.take 1).getD 0 0)
  else
    isAsciiAlphabetic ((bytes.take 1).getD 0 0) &&
    (((bytes.drop 1).take ((bytes.drop 1).length - 1)).length == 0 ||
      bytes_are_ldh_str ((bytes.drop 1).take ((bytes.drop 1).length - 1))) &&
    (((bytes.drop 1).drop ((bytes.drop 1).length - 1)).length == 0 ||
      isAsciiAlphanumeric (((bytes.drop 1).drop ((bytes.drop 1).length - 1)).getD 0 0))

end DomainMod

namespace Name
/-! Embedding of `src/lib/src/domain/name.rs` and `src/lib/src/domain/error.rs`. -/

def MAX_LABEL_LENGTH : Nat := 63

/-- `LABEL_SEPARATOR` is `'.'`, byte 46. -/
def LABEL_SEPARATOR : Nat := 46

/-- `TryFromError` from `src/lib/src/domain/error.rs`. The
`LabelInvalidEncoding` payload (the `FromUtf8Error`) is dropped; label
payloads are the label's bytes. -/
inductive TryFromError where
  | DomainEmpty
  | LabelEmpty
  | LabelTooLong (label : List Nat)
  | LabelInvalidEncoding
  | LabelInvalidFormat (label : List Nat)
deriving DecidableEq, Repr

/-- Whether a continuation byte of a UTF-8 sequence is well formed. -/
def utf8Cont (b : Nat) : Bool := decide (0x80 ≤ b ∧ b ≤ 0xBF)

/-- Byte-at-a-time UTF-8 validation automaton: `k` is the number of pending
continuation bytes, and `[lo, hi]` the admissible range of the next byte when
`k > 0` (the first continuation byte of a sequence has a restricted range,
per the standard encoding; later ones are plain `0x80`-`0xBF`). -/
def utf8Go : Nat → Nat → Nat → List Nat → Bool
  | k, _, _, [] => decide (k = 0)
  | 0, _, _, b0 :: rest =>
    if b0 < 0x80 then utf8Go 0 0 0 rest
    else if 0xC2 ≤ b0 ∧ b0 ≤ 0xDF then utf8Go 1 0x80 0xBF rest
    else if b0 = 0xE0 then utf8Go 2 0xA0 0xBF rest
    else if 0xE1 ≤ b0 ∧ b0 ≤ 0xEC then utf8Go 2 0x80 0xBF rest
    else if b0 = 0xED then utf8Go 2 0x80 0x9F rest
    else if 0xEE ≤ b0 ∧ b0 ≤ 0xEF then utf8Go 2 0x80 0xBF rest
    else if b0 = 0xF0 then utf8Go 3 0x90 0xBF rest
    else if 0xF1 ≤ b0 ∧ b0 ≤ 0xF3 then utf8Go 3 0x80 0xBF rest
    else if b0 = 0xF4 then utf8Go 3 0x80 0x8F rest
    else false
  | k + 1, lo, hi, b0 :: rest =>
    if lo ≤ b0 ∧ b0 ≤ hi then utf8Go k 0x80 0xBF rest else false

/-- Model of the success condition of Rust `String::from_utf8`
(standard UTF-8 validity over the byte values). -/
def utf8Valid (l : List Nat) : Bool := utf8Go 0 0 0 l

/-- `bytes_are_ldh_str` from `src/lib/src/domain/name.rs` (identical to the
one in `domain.rs`). -/
def bytes_are_ldh_str (bytes : List Nat) : Bool :=
  bytes.all (fun b => isAsciiAlphanumeric b || b == 45)

/-- `parse_label` from `src/lib/src/domain/name.rs`: UTF-8 decoding first,
then the empty/too-long checks, then the first/middle/last grammar checks.
On success the label is the input byte sequence itself. The Rust locals are
inlined as in `bytes_are_label`. -/
def parse_label (bytes : List Nat) : Except TryFromError (List Nat) :=
  if utf8Valid bytes = false then .error .LabelInvalidEncoding
  else if bytes.length = 0 then .error .LabelEmpty
  else if bytes.length > MAX_LABEL_LENGTH then .error (.LabelTooLong bytes)
  else if (bytes.drop 1).length = 0 then
    if isAsciiAlphabetic ((bytes.take 1).getD 0 0) then .ok bytes
    else .error (.LabelInvalidFormat bytes)
  else
    if isAsciiAlphabetic ((bytes.take 1).getD 0 0) &&
        (((bytes.drop 1).take ((bytes.drop 1).length - 1)).length == 0 ||
          bytes_are_ldh_str ((bytes.drop 1).take ((bytes.drop 1).length - 1))) &&
        (((bytes.drop 1).drop ((bytes.drop 1).length - 1)).length == 0 ||
          isAsciiAlphanumeric (((bytes.drop 1).drop ((bytes.drop 1).length - 1)).getD 0 0))
    then .ok bytes
    else .error (.LabelInvalidFormat bytes)

/-- `Domain` from `src/lib/src/domain/name.rs`: a list of labels, each
represented by its bytes. -/
structure Domain where
  labels : List (List Nat)
deriving DecidableEq, Repr

/-- Rust `slice::split` on a separator byte: the separator-free chunks, with
empty chunks kept (an empty input yields one empty chunk). -/
def splitOnByte (sep : Nat) : List Nat → List (List Nat)
  | [] => [[]]
  | b :: rest =>
    if b = sep then [] :: splitOnByte sep rest
    else
      match splitOnByte sep rest with
      | [] => [[b]]
      | p :: ps => (b :: p) :: ps

/-- `raw_labels.iter().map(parse_label).collect::<Result<Vec<_>, _>>()`:
validate each segment, stopping at the first error. -/
def collectLabels : List (List Nat) → Except TryFromError (List (List Nat))
  | [] => .ok []
  | seg :: rest =>
    match parse_label seg with
    | .error e => .error e
    | .ok s =>
      match collectLabels rest with
      | .error e => .error e
      | .ok ss => .ok (s :: ss)

/-- `Domain::try_from(&[u8])` from `src/lib/src/domain/name.rs`. The
`String` overload delegates to this via `as_bytes`. -/
def Domain.tryFromBytes (value : List Nat) : Except TryFromError Domain :=
  if value.isEmpty then .error .DomainEmpty
  else
    match collectLabels (splitOnByte LABEL_SEPARATOR value) with
    | .ok labels => .ok ⟨labels⟩
    | .error e => .error e

/-- `labels.join(".")`: joins the chunks with the separator byte in between. -/
def joinSep (sep : Nat) : List (List Nat) → List Nat
  | [] => []
  | [x] => x
  | x :: xs => x ++ sep :: joinSep sep xs

/-- The `Display` rendering of a `Domain` (`src/lib/src/domain/name.rs`),
as the byte sequence of the rendered string. -/
def Domain.render (d : Domain) : List Nat :=
  joinSep LABEL_SEPARATOR d.labels

/-- Modelled from the spec: `Domain::new` is not among the source files (only
its caller `parse_question` is). Spec section 4.2: incremental construction
starts "with an empty label list". -/
def Domain.new : Domain := ⟨[]⟩

/-- Modelled from the spec: `Domain::add_label` is not among the source files
(only its caller `parse_question` is). Spec section 4.2: "`add_label(bytes)`
validates and appends one label, failing with the same per-label errors as
`parse`". -/
def Domain.add_label (d : Domain) (bytes : List Nat) : Except TryFromError Domain :=
  match parse_label bytes with
  | .ok s => .ok ⟨d.labels ++ [s]⟩
  | .error e => .error e

end Name

namespace Message
/-! Embedding of `src/lib/src/message/header.rs`, `src/lib/src/message/error.rs`
and `src/lib/src/message/question.rs`. -/

/-- `u16::from_be_bytes([hi, lo])` for byte values `hi`, `lo`. -/
def u16_from_be (hi lo : Nat) : Nat := 256 * hi + lo

/-- `HeaderTryFromError` from `src/lib/src/message/error.rs`; the wrapped
`OpCodeTryFromError(u16)` / `RCodeTryFromError(u16)` tuple structs are
inlined as their numeric payloads. -/
inductive HeaderTryFromError where
  | InsufficientHeaderBytes (len : Nat)
  | OpCodeTryFromError (val : Nat)
  | ZTryFromError
  | RCodeTryFromError (val : Nat)
deriving DecidableEq, Repr

inductive QR where
  | Query
  | Response
deriving DecidableEq, Repr

inductive OpCode where
  | Query
  | InverseQuery
  | Status
deriving DecidableEq, Repr

inductive Z where
  | AllZeros
deriving DecidableEq, Repr

inductive RCode where
  | NoError
  | FormatError
  | ServerFailure
  | NameError
  | NotImplemented
  | Refused
deriving DecidableEq, Repr

/-- `QR::from(u16)` from `src/lib/src/message/header.rs`. -/
def QR.fromFlags (value : Nat) : QR :=
  if value &&& 0b1000000000000000 = 0 then .Query else .Response

/-- `OpCode::try_from(u16)` from `src/lib/src/message/header.rs`; the error
carries the unsupported 4-bit value. -/
def OpCode.tryFrom (value : Nat) : Except Nat OpCode :=
  match (value &&& 0b0111100000000000) >>> 11 with
  | 0 => .ok .Query
  | 1 => .ok .InverseQuery
  | 2 => .ok .Status
  | unsupported => .error unsupported

/-- `Z::try_from(u16)` from `src/lib/src/message/header.rs`. -/
def Z.tryFrom (value : Nat) : Except Unit Z :=
  match (value &&& 0b0000000001110000) >>> 4 with
  | 0 => .ok .AllZeros
  | _ => .error ()

/-- `RCode::try_from(u16)` from `src/lib/src/message/header.rs`; the error
carries the unsupported 4-bit value. -/
def RCode.tryFrom (value : Nat) : Except Nat RCode :=
  match value &&& 0b0000000000001111 with
  | 0 => .ok .NoError
  | 1 => .ok .FormatError
  | 2 => .ok .ServerFailure
  | 3 => .ok .NameError
  | 4 => .ok .NotImplemented
  | 5 => .ok .Refused
  | unsupported => .error unsupported

def parse_aa_flag (value : Nat) : Bool :=
  (value &&& 0b0000010000000000) >>> 10 == 1

def parse_tc_flag (value : Nat) : Bool :=
  (value &&& 0b0000001000000000) >>> 9 == 1

def parse_rd_flag (value : Nat) : Bool :=
  (value &&& 0b0000000100000000) >>> 8 == 1

def parse_ra_flag (value : Nat) : Bool :=
  (value &&& 0b0000000010000000) >>> 7 == 1

/-- `Header` from `src/lib/src/message/header.rs`. -/
structure Header where
  id : Nat
  qr : QR
  op_code : OpCode
  aa : Bool
  tc : Bool
  rd : Bool
  ra : Bool
  z : Z
  r_code : RCode
  qd_count : Nat
  an_count : Nat
  ns_count : Nat
  ar_count : Nat
deriving DecidableEq, Repr

/-- `Header::try_from(&[u8])` from `src/lib/src/message/header.rs`. The
indexings `value[i]` for `i < 12` are `getD _ i 0`, in bounds after the
length check. -/
def Header.tryFrom (value : List Nat) : Except HeaderTryFromError Header :=
  if value.length < 12 then .error (.InsufficientHeaderBytes value.length)
  else
    let flags := u16_from_be (value.getD 2 0) (value.getD 3 0)
    match OpCode.tryFrom flags with
    | .error u => .error (.OpCodeTryFromError u)
    | .ok op_code =>
      match Z.tryFrom flags with
      | .error _ => .error .ZTryFromError
      | .ok z =>
        match RCode.tryFrom flags with
        | .error u => .error (.RCodeTryFromError u)
        | .ok r_code =>
          .ok ⟨u16_from_be (value.getD 0 0) (value.getD 1 0),
            QR.fromFlags flags, op_code,
            parse_aa_flag flags, parse_tc_flag flags,
            parse_rd_flag flags, parse_ra_flag flags,
            z, r_code,
            u16_from_be (value.getD 4 0) (value.getD 5 0),
            u16_from_be (value.getD 6 0) (value.getD 7 0),
            u16_from_be (value.getD 8 0) (value.getD 9 0),
            u16_from_be (value.getD 10 0) (value.getD 11 0)⟩

/-- `QType` from `src/lib/src/message/question.rs` (raw 16-bit value). -/
structure QType where
  value : Nat
deriving DecidableEq, Repr

def QType.new (value : Nat) : QType := ⟨value⟩

/-- `QClass` from `src/lib/src/message/question.rs` (raw 16-bit value). -/
structure QClass where
  value : Nat
deriving DecidableEq, Repr

def QClass.new (value : Nat) : QClass := ⟨value⟩

/-- `Question` from `src/lib/src/message/question.rs`. -/
structure Question where
  q_name : Name.Domain
  q_type : QType
  q_class : QClass
deriving DecidableEq, Repr

/-- `QuestionParseData` from `src/lib/src/message/question.rs`. -/
structure QuestionParseData where
  question : Question
  bytes_read : Nat
deriving DecidableEq, Repr

/-- Result of the QNAME-reading `loop` of `parse_question`: the grown domain,
the final `question_pos` and `bytes_read`, a propagated domain error, or an
out-of-bounds slice access (a panic in the Rust source). -/
inductive LoopResult where
  | ok (q_name : Name.Domain) (question_pos : Nat) (bytes_read : Nat)
  | err (e : Name.TryFromError)
  | oob
deriving DecidableEq, Repr

/-- Outcome of `parse_question`: success, domain error, or out-of-bounds
access (a panic in the Rust source). -/
inductive ParseOutcome where
  | ok (d : QuestionParseData)
  | err (e : Name.TryFromError)
  | oob
deriving DecidableEq, Repr

/-- Rust `&msg[start..start + len]`: `some` slice when in bounds, `none`
for the panicking out-of-bounds case. -/
def slice? (msg : List Nat) (start len : Nat) : Option (List Nat) :=
  if start + len ≤ msg.length then some ((msg.drop start).take len) else none

/-- The QNAME-reading `loop` of `parse_question`
(`src/lib/src/message/question.rs`, lines 40-84), with fuel: `none` means
the fuel ran out (the source loop is still running). State: read cursor
`pos`, linear cursor `question_pos`, `using_compression` flag, linear
counter `bytes_read`, and the domain grown so far. The Rust locals are
inlined: the pointer target is `((b &&& 0b00111111) <<< 8) ||| b2`, and the
two `bytes_read` increments of the label branch (1 for the length byte,
`label_length` after `add_label` succeeds) appear as `bytes_read + 1 + b`. -/
def questionLoop (msg : List Nat) :
    Nat → Nat → Nat → Bool → Nat → Name.Domain → Option LoopResult
  | 0, _, _, _, _, _ => none
  | fuel + 1, pos, question_pos, using_compression, bytes_read, q_name =>
    match msg[pos]? with
    | none => some .oob
    | some b =>
      if b &&& 0b11000000 == 0b11000000 then
        match msg[pos + 1]? with
        | none => some .oob
        | some b2 =>
          questionLoop msg fuel (((b &&& 0b00111111) <<< 8) ||| b2)
            (if using_compression then question_pos else pos + 2) true
            (if using_compression then bytes_read else bytes_read + 2) q_name
      else if b == 0 then
        some (.ok q_name
          (if using_compression then question_pos else pos + 1)
          (if using_compression then bytes_read else bytes_read + 1))
      else
        match slice? msg (pos + 1) b with
        | none => some .oob
        | some label_slice =>
          match q_name.add_label label_slice with
          | .ok q_name2 =>
            questionLoop msg fuel (pos + 1 + b) question_pos using_compression
              (if using_compression then bytes_read else bytes_read + 1 + b)
              q_name2
          | .error e => some (.err e)

/-- `parse_question` from `src/lib/src/message/question.rs`: the name loop
followed by the big-endian QTYPE and QCLASS reads at `question_pos`, each
adding 2 to `bytes_read`. -/
def parse_question (msg : List Nat) (offset : Nat) (fuel : Nat) : Option ParseOutcome :=
  match questionLoop msg fuel offset offset false 0 Name.Domain.new with
  | none => none
  | some .oob => some .oob
  | some (.err e) => some (.err e)
  | some (.ok q_name question_pos bytes_read) =>
    match msg[question_pos]?, msg[question_pos + 1]? with
    | some t0, some t1 =>
      match msg[question_pos + 2]?, msg[question_pos + 2 + 1]? with
      | some c0, some c1 =>
        some (.ok ⟨⟨q_name, QType.new (u16_from_be t0 t1),
          QClass.new (u16_from_be c0 c1)⟩, bytes_read + 2 + 2⟩)
      | _, _ => some .oob
    | _, _ => some .oob

end Message

/-! Spec-side definitions (phrased from the specification's wording, to be
compared with the embedded code). -/

/-- The flags word: the big-endian 16-bit integer from bytes 2-3. -/
def flagsWord (value : List Nat) : Nat :=
  256 * value.getD 2 0 + value.getD 3 0

/-- Spec: OPCODE is bits 14-11 of the flags word. -/
def opcodeField (flags : Nat) : Nat := flags / 2 ^ 11 % 2 ^ 4

/-- Spec: Z is bits 6-4 of the flags word. -/
def zField (flags : Nat) : Nat := flags / 2 ^ 4 % 2 ^ 3

/-- Spec: RCODE is bits 3-0 of the flags word. -/
def rcodeField (flags : Nat) : Nat := flags % 2 ^ 4

/-- Spec: the bit of `flags` at position `k`, as `0` or `1`. -/
def bitField (flags k : Nat) : Nat := flags / 2 ^ k % 2

/-- Spec-side label grammar, as the claim words it: length in `[1, 63]`,
first byte a letter, last byte a letter or digit, every interior byte a
letter, digit, or hyphen. -/
def labelSpec (l : List Nat) : Prop :=
  1 ≤ l.length ∧ l.length ≤ 63 ∧
  (∀ b, l.head? = some b → isAsciiAlphabetic b = true) ∧
  (∀ b, l.getLast? = some b → isAsciiAlphanumeric b = true) ∧
  (∀ b ∈ (l.drop 1).dropLast, (isAsciiAlphanumeric b || b == 45) = true)

/-- Spec-side wire length of an uncompressed encoded name starting at `pos`:
each label costs its length byte plus its content, the terminating zero
byte costs 1; `none` if the walk leaves the buffer, meets a compression
pointer, or runs out of fuel. -/
def nameWireLen (msg : List Nat) : Nat → Nat → Option Nat
  | 0, _ => none
  | fuel + 1, pos =>
    match msg[pos]? with
    | none => none
    | some b =>
      if b &&& 0b11000000 == 0b11000000 then none
      else if b == 0 then some 1
      else
        match nameWireLen msg fuel (pos + 1 + b) with
        | some n => some (1 + b + n)
        | none => none

/-! Concrete wire fixtures (byte values spelled out; `97 = 'a'` etc.). -/

/-- The bytes of `"example"`. -/
def exampleBytes : List Nat := [101, 120, 97, 109, 112, 108, 101]

/-- The bytes of `"com"`. -/
def comBytes : List Nat := [99, 111, 109]

/-- The bytes of `"test"`. -/
def testBytes : List Nat := [116, 101, 115, 116]

/-- `example.com`, type A, class IN, no compression: 17 wire bytes. -/
def msgPlain : List Nat :=
  [7] ++ exampleBytes ++ [3] ++ comBytes ++ [0, 0, 1, 0, 1]

/-- A buffer holding `example.com` at offset 3 and, at offset 16, the
question `test` + pointer to offset 3, type A, class IN. -/
def msgPointer : List Nat :=
  [0, 0, 0, 7] ++ exampleBytes ++ [3] ++ comBytes ++ [0, 4] ++ testBytes ++
    [0b11000000, 3, 0, 1, 0, 1]

/-- A buffer with two chained pointers: `com` at 0, `example` + pointer to 0
at 5, and at offset 15 the question `test` + pointer to 5, type A, class IN. -/
def msgNested : List Nat :=
  [3] ++ comBytes ++ [0, 7] ++ exampleBytes ++ [0b11000000, 0, 4] ++ testBytes ++
    [0b11000000, 5, 0, 1, 0, 1]

/-- A 2-byte message whose byte pair at offset 0 is a compression pointer
whose 14-bit target is offset 0 itself. -/
def msgSelfPointer : List Nat := [0b11000000, 0]

/-! Helper lemmas: bit-field extraction. -/

theorem and_mask_shift (x k n : Nat) :
    (x &&& ((2 ^ n - 1) <<< k)) >>> k = x / 2 ^ k % 2 ^ n := by
  apply Nat.eq_of_testBit_eq
  intro j
  rw [← Nat.shiftRight_eq_div_pow]
  simp [Nat.testBit_shiftRight, Nat.testBit_and, Nat.testBit_shiftLeft,
    Nat.testBit_two_pow_sub_one, Nat.testBit_mod_two_pow, Nat.le_add_right,
    Nat.add_sub_cancel_left, Bool.and_comm]

theorem and_two_pow_eq_zero_iff (x k : Nat) :
    x &&& 2 ^ k = 0 ↔ x / 2 ^ k % 2 = 0 := by
  have hbit : Nat.testBit x k = decide (x / 2 ^ k % 2 = 1) := Nat.testBit_to_div_mod
  constructor
  · intro h
    have h2 : Nat.testBit (x &&& 2 ^ k) k = false := by rw [h]; simp
    rw [Nat.testBit_and, Nat.testBit_two_pow_self, Bool.and_true, hbit] at h2
    simp at h2
    omega
  · intro h
    apply Nat.eq_of_testBit_eq
    intro j
    rw [Nat.testBit_and, Nat.testBit_two_pow]
    rcases Decidable.em (k = j) with he | he
    · subst he
      rw [hbit]
      simp
      omega
    · simp [he]

theorem opcode_extract_eq (x : Nat) :
    (x &&& 0b0111100000000000) >>> 11 = opcodeField x := by
  have h := and_mask_shift x 11 4
  have e : ((2 : Nat) ^ 4 - 1) <<< 11 = 0b0111100000000000 := by decide
  rw [e] at h
  exact h

theorem z_extract_eq (x : Nat) :
    (x &&& 0b0000000001110000) >>> 4 = zField x := by
  have h := and_mask_shift x 4 3
  have e : ((2 : Nat) ^ 3 - 1) <<< 4 = 0b0000000001110000 := by decide
  rw [e] at h
  exact h

theorem rcode_extract_eq (x : Nat) :
    x &&& 0b0000000000001111 = rcodeField x := by
  have h := Nat.and_pow_two_sub_one_eq_mod x 4
  have e : (2 : Nat) ^ 4 - 1 = 0b0000000000001111 := by decide
  rw [e] at h
  exact h

theorem bit_extract_eq (x k : Nat) :
    (x &&& (2 ^ k)) >>> k = bitField x k := by
  have h := and_mask_shift x k 1
  have e : ((2 : Nat) ^ 1 - 1) = 1 := by decide
  rw [e, Nat.one_shiftLeft] at h
  exact h

/-! Helper lemmas: header sub-field decoders. -/

namespace Message

theorem opCode_tryFrom_eq (x : Nat) :
    OpCode.tryFrom x =
      match opcodeField x with
      | 0 => .ok .Query
      | 1 => .ok .InverseQuery
      | 2 => .ok .Status
      | u => .error u := by
  unfold OpCode.tryFrom
  rw [opcode_extract_eq]

theorem z_tryFrom_eq (x : Nat) :
    Z.tryFrom x =
      match zField x with
      | 0 => .ok .AllZeros
      | _ => .error () := by
  unfold Z.tryFrom
  rw [z_extract_eq]

theorem rCode_tryFrom_eq (x : Nat) :
    RCode.tryFrom x =
      match rcodeField x with
      | 0 => .ok .NoError
      | 1 => .ok .FormatError
      | 2 => .ok .ServerFailure
      | 3 => .ok .NameError
      | 4 => .ok .NotImplemented
      | 5 => .ok .Refused
      | u => .error u := by
  unfold RCode.tryFrom
  rw [rcode_extract_eq]

theorem opCode_tryFrom_err (x : Nat) (h : 3 ≤ opcodeField x) :
    OpCode.tryFrom x = .error (opcodeField x) := by
  rw [opCode_tryFrom_eq]
  obtain ⟨u, hu⟩ : ∃ u, opcodeField x = u + 3 := ⟨opcodeField x - 3, by omega⟩
  rw [hu]
  rfl

theorem z_tryFrom_err (x : Nat) (h : zField x ≠ 0) :
    Z.tryFrom x = .error () := by
  rw [z_tryFrom_eq]
  obtain ⟨u, hu⟩ : ∃ u, zField x = u + 1 := ⟨zField x - 1, by omega⟩
  rw [hu]
  rfl

theorem rCode_tryFrom_err (x : Nat) (h : 6 ≤ rcodeField x) :
    RCode.tryFrom x = .error (rcodeField x) := by
  rw [rCode_tryFrom_eq]
  obtain ⟨u, hu⟩ : ∃ u, rcodeField x = u + 6 := ⟨rcodeField x - 6, by omega⟩
  rw [hu]
  rfl

theorem header_tryFrom_short (value : List Nat) (h : value.length < 12) :
    Header.tryFrom value = .error (.InsufficientHeaderBytes value.length) := by
  unfold Header.tryFrom
  rw [if_pos h]

theorem header_tryFrom_unfold (value : List Nat) (h12 : 12 ≤ value.length) :
    Header.tryFrom value =
      match OpCode.tryFrom (flagsWord value) with
      | .error u => .error (.OpCodeTryFromError u)
      | .ok op_code =>
        match Z.tryFrom (flagsWord value) with
        | .error _ => .error .ZTryFromError
        | .ok z =>
          match RCode.tryFrom (flagsWord value) with
          | .error u => .error (.RCodeTryFromError u)
          | .ok r_code =>
            .ok ⟨u16_from_be (value.getD 0 0) (value.getD 1 0),
              QR.fromFlags (flagsWord value), op_code,
              parse_aa_flag (flagsWord value), parse_tc_flag (flagsWord value),
              parse_rd_flag (flagsWord value), parse_ra_flag (flagsWord value),
              z, r_code,
              u16_from_be (value.getD 4 0) (value.getD 5 0),
              u16_from_be (value.getD 6 0) (value.getD 7 0),
              u16_from_be (value.getD 8 0) (value.getD 9 0),
              u16_from_be (value.getD 10 0) (value.getD 11 0)⟩ := by
  unfold Header.tryFrom
  rw [if_neg (by omega)]
  rfl

theorem qr_fromFlags_eq (x : Nat) :
    QR.fromFlags x = if bitField x 15 = 1 then QR.Response else QR.Query := by
  unfold QR.fromFlags
  have h2 : (0b1000000000000000 : Nat) = 2 ^ 15 := by decide
  rw [h2]
  have hb : bitField x 15 = x / 2 ^ 15 % 2 := rfl
  by_cases h : x &&& 2 ^ 15 = 0
  · rw [if_pos h]
    have := (and_two_pow_eq_zero_iff x 15).mp h
    rw [if_neg (by omega)]
  · rw [if_neg h]
    have := (and_two_pow_eq_zero_iff x 15).not.mp h
    rw [if_pos (by omega)]

theorem parse_aa_flag_iff (x : Nat) :
    parse_aa_flag x = true ↔ bitField x 10 = 1 := by
  unfold parse_aa_flag
  have h2 : (0b0000010000000000 : Nat) = 2 ^ 10 := by decide
  rw [h2, bit_extract_eq]
  simp

theorem parse_tc_flag_iff (x : Nat) :
    parse_tc_flag x = true ↔ bitField x 9 = 1 := by
  unfold parse_tc_flag
  have h2 : (0b0000001000000000 : Nat) = 2 ^ 9 := by decide
  rw [h2, bit_extract_eq]
  simp

theorem parse_rd_flag_iff (x : Nat) :
    parse_rd_flag x = true ↔ bitField x 8 = 1 := by
  unfold parse_rd_flag
  have h2 : (0b0000000100000000 : Nat) = 2 ^ 8 := by decide
  rw [h2, bit_extract_eq]
  simp

theorem parse_ra_flag_iff (x : Nat) :
    parse_ra_flag x = true ↔ bitField x 7 = 1 := by
  unfold parse_ra_flag
  have h2 : (0b0000000010000000 : Nat) = 2 ^ 7 := by decide
  rw [h2, bit_extract_eq]
  simp

theorem opCode_tryFrom_ok (x : Nat) (h : opcodeField x < 3) :
    ∃ oc, OpCode.tryFrom x = .ok oc := by
  rw [opCode_tryFrom_eq]
  rcases (by omega : opcodeField x = 0 ∨ opcodeField x = 1 ∨ opcodeField x = 2)
    with he | he | he <;> rw [he] <;> exact ⟨_, rfl⟩

theorem z_tryFrom_ok (x : Nat) (h : zField x = 0) : Z.tryFrom x = .ok .AllZeros := by
  rw [z_tryFrom_eq, h]

theorem rCode_tryFrom_ok (x : Nat) (h : rcodeField x < 6) :
    ∃ rc, RCode.tryFrom x = .ok rc := by
  rw [rCode_tryFrom_eq]
  rcases (by omega : rcodeField x = 0 ∨ rcodeField x = 1 ∨ rcodeField x = 2 ∨
      rcodeField x = 3 ∨ rcodeField x = 4 ∨ rcodeField x = 5)
    with he | he | he | he | he | he <;> rw [he] <;> exact ⟨_, rfl⟩

theorem header_err_opcode (value : List Nat) (h12 : 12 ≤ value.length)
    (h : 3 ≤ opcodeField (flagsWord value)) :
    Header.tryFrom value = .error (.OpCodeTryFromError (opcodeField (flagsWord value))) := by
  rw [header_tryFrom_unfold value h12, opCode_tryFrom_err _ h]

theorem header_err_z (value : List Nat) (h12 : 12 ≤ value.length)
    (hop : opcodeField (flagsWord value) < 3) (hz : zField (flagsWord value) ≠ 0) :
    Header.tryFrom value = .error .ZTryFromError := by
  obtain ⟨oc, hoc⟩ := opCode_tryFrom_ok _ hop
  rw [header_tryFrom_unfold value h12, hoc, z_tryFrom_err _ hz]

theorem header_err_rcode (value : List Nat) (h12 : 12 ≤ value.length)
    (hop : opcodeField (flagsWord value) < 3) (hz : zField (flagsWord value) = 0)
    (hrc : 6 ≤ rcodeField (flagsWord value)) :
    Header.tryFrom value = .error (.RCodeTryFromError (rcodeField (flagsWord value))) := by
  obtain ⟨oc, hoc⟩ := opCode_tryFrom_ok _ hop
  rw [header_tryFrom_unfold value h12, hoc, z_tryFrom_ok _ hz, rCode_tryFrom_err _ hrc]

theorem header_ok_char (value : List Nat) (h12 : 12 ≤ value.length)
    (hop : opcodeField (flagsWord value) < 3) (hz : zField (flagsWord value) = 0)
    (hrc : rcodeField (flagsWord value) < 6) :
    ∃ oc rc, OpCode.tryFrom (flagsWord value) = .ok oc ∧
      RCode.tryFrom (flagsWord value) = .ok rc ∧
      Header.tryFrom value = .ok ⟨u16_from_be (value.getD 0 0) (value.getD 1 0),
        QR.fromFlags (flagsWord value), oc,
        parse_aa_flag (flagsWord value), parse_tc_flag (flagsWord value),
        parse_rd_flag (flagsWord value), parse_ra_flag (flagsWord value),
        .AllZeros, rc,
        u16_from_be (value.getD 4 0) (value.getD 5 0),
        u16_from_be (value.getD 6 0) (value.getD 7 0),
        u16_from_be (value.getD 8 0) (value.getD 9 0),
        u16_from_be (value.getD 10 0) (value.getD 11 0)⟩ := by
  obtain ⟨oc, hoc⟩ := opCode_tryFrom_ok _ hop
  obtain ⟨rc, hrc2⟩ := rCode_tryFrom_ok _ hrc
  exact ⟨oc, rc, hoc, hrc2, by
    rw [header_tryFrom_unfold value h12, hoc, z_tryFrom_ok _ hz, hrc2]⟩

theorem opCode_tryFrom_zero (x : Nat) (h : opcodeField x = 0) :
    OpCode.tryFrom x = .ok .Query := by rw [opCode_tryFrom_eq, h]

theorem opCode_tryFrom_one (x : Nat) (h : opcodeField x = 1) :
    OpCode.tryFrom x = .ok .InverseQuery := by rw [opCode_tryFrom_eq, h]

theorem opCode_tryFrom_two (x : Nat) (h : opcodeField x = 2) :
    OpCode.tryFrom x = .ok .Status := by rw [opCode_tryFrom_eq, h]

theorem rCode_tryFrom_0 (x : Nat) (h : rcodeField x = 0) :
    RCode.tryFrom x = .ok .NoError := by rw [rCode_tryFrom_eq, h]

theorem rCode_tryFrom_1 (x : Nat) (h : rcodeField x = 1) :
    RCode.tryFrom x = .ok .FormatError := by rw [rCode_tryFrom_eq, h]

theorem rCode_tryFrom_2 (x : Nat) (h : rcodeField x = 2) :
    RCode.tryFrom x = .ok .ServerFailure := by rw [rCode_tryFrom_eq, h]

theorem rCode_tryFrom_3 (x : Nat) (h : rcodeField x = 3) :
    RCode.tryFrom x = .ok .NameError := by rw [rCode_tryFrom_eq, h]

theorem rCode_tryFrom_4 (x : Nat) (h : rcodeField x = 4) :
    RCode.tryFrom x = .ok .NotImplemented := by rw [rCode_tryFrom_eq, h]

theorem rCode_tryFrom_5 (x : Nat) (h : rcodeField x = 5) :
    RCode.tryFrom x = .ok .Refused := by rw [rCode_tryFrom_eq, h]

/-- Claim C3: header decoding on fewer than 12 bytes fails with
`InsufficientHeaderBytes` carrying the actual length; on at least 12 bytes
it fails iff OPCODE is in 3-15, Z is nonzero, or RCODE is in 6-15, and the
error is the wrapper kind of the first failing sub-field in the order
OPCODE, Z, RCODE, with OPCODE/RCODE errors carrying the offending 4-bit
value. -/
theorem c3_header_error_taxonomy :
    (∀ value : List Nat, value.length < 12 →
      Header.tryFrom value = .error (.InsufficientHeaderBytes value.length)) ∧
    (∀ value : List Nat, 12 ≤ value.length →
      (((Header.tryFrom value).isOk = false) ↔
        (3 ≤ opcodeField (flagsWord value) ∨ zField (flagsWord value) ≠ 0 ∨
          6 ≤ rcodeField (flagsWord value))) ∧
      (3 ≤ opcodeField (flagsWord value) →
        Header.tryFrom value = .error (.OpCodeTryFromError (opcodeField (flagsWord value)))) ∧
      (opcodeField (flagsWord value) < 3 → zField (flagsWord value) ≠ 0 →
        Header.tryFrom value = .error .ZTryFromError) ∧
      (opcodeField (flagsWord value) < 3 → zField (flagsWord value) = 0 →
        6 ≤ rcodeField (flagsWord value) →
        Header.tryFrom value = .error (.RCodeTryFromError (rcodeField (flagsWord value))))) := by
  refine ⟨fun value h => header_tryFrom_short value h, fun value h12 => ?_⟩
  refine ⟨?_, header_err_opcode value h12, header_err_z value h12,
    header_err_rcode value h12⟩
  by_cases hop : 3 ≤ opcodeField (flagsWord value)
  · rw [header_err_opcode value h12 hop]
    simp [Except.isOk, Except.toBool, hop]
  · by_cases hz : zField (flagsWord value) = 0
    · by_cases hrc : 6 ≤ rcodeField (flagsWord value)
      · rw [header_err_rcode value h12 (by omega) hz hrc]
        simp [Except.isOk, Except.toBool, hrc]
      · obtain ⟨oc, rc, _, _, hok⟩ := header_ok_char value h12 (by omega) hz (by omega)
        rw [hok]
        simp [Except.isOk, Except.toBool, hop, hz, hrc]
    · rw [header_err_z value h12 (by omega) hz]
      simp [Except.isOk, Except.toBool, hz]

/-- Witness for C3 at concrete inputs: a 2-byte buffer fails with
`InsufficientHeaderBytes 2`, and a 12-byte buffer with OPCODE field 7 fails
with `OpCodeTryFromError 7`. -/
theorem c3_header_error_taxonomy_witness :
    ([1, 2] : List Nat).length < 12 ∧
    Header.tryFrom [1, 2] = .error (.InsufficientHeaderBytes 2) ∧
    3 ≤ opcodeField (flagsWord [0, 255, 0b00111000, 0, 0, 1, 0, 0, 0, 0, 0, 0]) ∧
    Header.tryFrom [0, 255, 0b00111000, 0, 0, 1, 0, 0, 0, 0, 0, 0] =
      .error (.OpCodeTryFromError 7) := by
  refine ⟨by decide, c3_header_error_taxonomy.1 [1, 2] (by decide), by decide, ?_⟩
  have h := (c3_header_error_taxonomy.2 [0, 255, 0b00111000, 0, 0, 1, 0, 0, 0, 0, 0, 0]
    (by decide)).2.1 (by decide)
  rw [h]
  decide

/-- Claim C4: on every successful header decode the fields are read from
the documented byte/bit positions: identifier from bytes 0-1 big-endian,
QR from bit 15, OPCODE from bits 14-11 mapped 0/1/2, AA/TC/RD/RA from bits
10/9/8/7, Z from bits 6-4, RCODE from bits 3-0 mapped 0-5, counts from
bytes 4-11 big-endian; the concrete 12-byte example decodes as stated. -/
theorem c4_header_field_extraction :
    (Header.tryFrom [0, 255, 0, 0, 0, 1, 0, 0, 0, 0, 0, 0] =
      .ok ⟨255, .Query, .Query, false, false, false, false, .AllZeros, .NoError, 1, 0, 0, 0⟩) ∧
    (∀ (value : List Nat) (hd : Header), Header.tryFrom value = .ok hd →
      hd.id = u16_from_be (value.getD 0 0) (value.getD 1 0) ∧
      hd.qr = (if bitField (flagsWord value) 15 = 1 then QR.Response else QR.Query) ∧
      (opcodeField (flagsWord value) = 0 → hd.op_code = .Query) ∧
      (opcodeField (flagsWord value) = 1 → hd.op_code = .InverseQuery) ∧
      (opcodeField (flagsWord value) = 2 → hd.op_code = .Status) ∧
      (hd.aa = true ↔ bitField (flagsWord value) 10 = 1) ∧
      (hd.tc = true ↔ bitField (flagsWord value) 9 = 1) ∧
      (hd.rd = true ↔ bitField (flagsWord value) 8 = 1) ∧
      (hd.ra = true ↔ bitField (flagsWord value) 7 = 1) ∧
      hd.z = .AllZeros ∧ zField (flagsWord value) = 0 ∧
      (rcodeField (flagsWord value) = 0 → hd.r_code = .NoError) ∧
      (rcodeField (flagsWord value) = 1 → hd.r_code = .FormatError) ∧
      (rcodeField (flagsWord value) = 2 → hd.r_code = .ServerFailure) ∧
      (rcodeField (flagsWord value) = 3 → hd.r_code = .NameError) ∧
      (rcodeField (flagsWord value) = 4 → hd.r_code = .NotImplemented) ∧
      (rcodeField (flagsWord value) = 5 → hd.r_code = .Refused) ∧
      hd.qd_count = u16_from_be (value.getD 4 0) (value.getD 5 0) ∧
      hd.an_count = u16_from_be (value.getD 6 0) (value.getD 7 0) ∧
      hd.ns_count = u16_from_be (value.getD 8 0) (value.getD 9 0) ∧
      hd.ar_count = u16_from_be (value.getD 10 0) (value.getD 11 0)) := by
  refine ⟨by decide, fun value hd h => ?_⟩
  have h12 : 12 ≤ value.length := by
    by_contra hlt
    rw [header_tryFrom_short value (by omega)] at h
    exact Except.noConfusion h
  have hop : opcodeField (flagsWord value) < 3 := by
    by_contra hc
    rw [header_err_opcode value h12 (by omega)] at h
    exact Except.noConfusion h
  have hz : zField (flagsWord value) = 0 := by
    by_contra hc
    rw [header_err_z value h12 hop hc] at h
    exact Except.noConfusion h
  have hrc : rcodeField (flagsWord value) < 6 := by
    by_contra hc
    rw [header_err_rcode value h12 hop hz (by omega)] at h
    exact Except.noConfusion h
  obtain ⟨oc, rc, hoc, hrc2, hok⟩ := header_ok_char value h12 hop hz hrc
  rw [hok] at h
  have hhd := (Except.ok.inj h).symm
  subst hhd
  refine ⟨rfl, qr_fromFlags_eq _, ?_, ?_, ?_, parse_aa_flag_iff _, parse_tc_flag_iff _,
    parse_rd_flag_iff _, parse_ra_flag_iff _, rfl, hz, ?_, ?_, ?_, ?_, ?_, ?_,
    rfl, rfl, rfl, rfl⟩
  · intro hk
    exact (Except.ok.inj ((opCode_tryFrom_zero _ hk).symm.trans hoc)).symm
  · intro hk
    exact (Except.ok.inj ((opCode_tryFrom_one _ hk).symm.trans hoc)).symm
  · intro hk
    exact (Except.ok.inj ((opCode_tryFrom_two _ hk).symm.trans hoc)).symm
  · intro hk
    exact (Except.ok.inj ((rCode_tryFrom_0 _ hk).symm.trans hrc2)).symm
  · intro hk
    exact (Except.ok.inj ((rCode_tryFrom_1 _ hk).symm.trans hrc2)).symm
  · intro hk
    exact (Except.ok.inj ((rCode_tryFrom_2 _ hk).symm.trans hrc2)).symm
  · intro hk
    exact (Except.ok.inj ((rCode_tryFrom_3 _ hk).symm.trans hrc2)).symm
  · intro hk
    exact (Except.ok.inj ((rCode_tryFrom_4 _ hk).symm.trans hrc2)).symm
  · intro hk
    exact (Except.ok.inj ((rCode_tryFrom_5 _ hk).symm.trans hrc2)).symm

/-- Witness for C4: the general field-extraction part applied to the
concrete example buffer. -/
theorem c4_header_field_extraction_witness :
    Header.tryFrom [0, 255, 0, 0, 0, 1, 0, 0, 0, 0, 0, 0] =
      .ok ⟨255, .Query, .Query, false, false, false, false, .AllZeros, .NoError, 1, 0, 0, 0⟩ ∧
    (255 : Nat) = u16_from_be (([0, 255, 0, 0, 0, 1, 0, 0, 0, 0, 0, 0] : List Nat).getD 0 0)
      (([0, 255, 0, 0, 0, 1, 0, 0, 0, 0, 0, 0] : List Nat).getD 1 0) :=
  ⟨by decide,
    (c4_header_field_extraction.2 [0, 255, 0, 0, 0, 1, 0, 0, 0, 0, 0, 0]
      ⟨255, .Query, .Query, false, false, false, false, .AllZeros, .NoError, 1, 0, 0, 0⟩
      (by decide)).1⟩

end Message

/-! Helper lemmas: label grammar and domain parsing. -/

theorem alpha_imp_alnum {b : Nat} (h : isAsciiAlphabetic b = true) :
    isAsciiAlphanumeric b = true := by
  simp [isAsciiAlphanumeric, h]

theorem alpha_lt_128 {b : Nat} (h : isAsciiAlphabetic b = true) : b < 128 := by
  simp [isAsciiAlphabetic] at h
  omega

theorem alnum_lt_128 {b : Nat} (h : isAsciiAlphanumeric b = true) : b < 128 := by
  simp [isAsciiAlphanumeric, isAsciiAlphabetic, isAsciiDigit] at h
  omega

theorem ldh_lt_128 {b : Nat} (h : (isAsciiAlphanumeric b || b == 45) = true) : b < 128 := by
  rcases Bool.or_eq_true_iff.mp h with h2 | h2
  · exact alnum_lt_128 h2
  · simp at h2
    omega

theorem exists_concat {α : Type} (l : List α) (h : l ≠ []) : ∃ L x, l = L ++ [x] := by
  rcases l.eq_nil_or_concat with h0 | ⟨L, x, h0⟩
  · exact absurd h0 h
  · exact ⟨L, x, by simpa [List.concat_eq_append] using h0⟩

theorem or_ldh_eq (L : List Nat) :
    (L.length == 0 || DomainMod.bytes_are_ldh_str L) = DomainMod.bytes_are_ldh_str L := by
  cases L <;> simp [DomainMod.bytes_are_ldh_str]

theorem bytes_are_label_singleton (b : Nat) :
    DomainMod.bytes_are_label [b] = isAsciiAlphabetic b := by
  simp [DomainMod.bytes_are_label, DomainMod.MAX_LABEL_LENGTH]

theorem bytes_are_label_concat (a : Nat) (L : List Nat) (x : Nat) :
    DomainMod.bytes_are_label (a :: (L ++ [x])) =
      (decide (L.length + 2 ≤ 63) && (isAsciiAlphabetic a &&
        DomainMod.bytes_are_ldh_str L && isAsciiAlphanumeric x)) := by
  unfold DomainMod.bytes_are_label
  have hlen : (a :: (L ++ [x])).length = L.length + 2 := by simp
  by_cases hb : L.length + 2 ≤ 63
  · rw [if_neg (by rw [hlen]; unfold DomainMod.MAX_LABEL_LENGTH; omega)]
    have h1 : (a :: (L ++ [x])).take 1 = [a] := rfl
    have h2 : (a :: (L ++ [x])).drop 1 = L ++ [x] := rfl
    rw [h1, h2]
    have h3 : (L ++ [x]).length = L.length + 1 := by simp
    rw [h3]
    rw [if_neg (by omega)]
    have h4 : L.length + 1 - 1 = L.length := by omega
    rw [h4, List.take_left, List.drop_left]
    simp [or_ldh_eq, hb]
  · rw [if_pos (by rw [hlen]; unfold DomainMod.MAX_LABEL_LENGTH; omega)]
    simp [hb]

theorem labelSpec_concat (a : Nat) (L : List Nat) (x : Nat) :
    labelSpec (a :: (L ++ [x])) ↔
      (L.length + 2 ≤ 63 ∧ isAsciiAlphabetic a = true ∧
        (∀ b ∈ L, (isAsciiAlphanumeric b || b == 45) = true) ∧
        isAsciiAlphanumeric x = true) := by
  unfold labelSpec
  have hhead : (a :: (L ++ [x])).head? = some a := rfl
  have hlast : (a :: (L ++ [x])).getLast? = some x := by
    rw [← List.cons_append, List.getLast?_concat]
  have hmid : ((a :: (L ++ [x])).drop 1).dropLast = L := by
    have h2 : (a :: (L ++ [x])).drop 1 = L ++ [x] := rfl
    rw [h2, List.dropLast_concat]
  rw [hhead, hlast, hmid]
  have hlen : (a :: (L ++ [x])).length = L.length + 2 := by simp
  rw [hlen]
  constructor
  · rintro ⟨h1, h2, h3, h4, h5⟩
    exact ⟨by omega, h3 a rfl, h5, h4 x rfl⟩
  · rintro ⟨h1, h2, h3, h4⟩
    refine ⟨by omega, by omega, ?_, ?_, h3⟩
    · intro b hb
      cases hb
      exact h2
    · intro b hb
      cases hb
      exact h4

theorem bytes_are_label_iff (l : List Nat) :
    DomainMod.bytes_are_label l = true ↔ labelSpec l := by
  rcases l with _ | ⟨a, r⟩
  · constructor
    · intro h
      simp [DomainMod.bytes_are_label] at h
    · rintro ⟨h1, -⟩
      simp at h1
  rcases eq_or_ne r [] with rfl | hr
  · rw [bytes_are_label_singleton]
    constructor
    · intro h
      refine ⟨by simp, by simp, ?_, ?_, by simp⟩
      · intro b hb
        cases Option.some.inj hb
        exact h
      · intro b hb
        cases Option.some.inj hb
        exact alpha_imp_alnum h
    · rintro ⟨-, -, hh, -, -⟩
      exact hh a rfl
  · obtain ⟨L, x, rfl⟩ := exists_concat r hr
    rw [bytes_are_label_concat, labelSpec_concat]
    unfold DomainMod.bytes_are_ldh_str
    simp [List.all_eq_true]
    tauto

theorem labelSpec_lt_128 {l : List Nat} (h : labelSpec l) : ∀ b ∈ l, b < 128 := by
  rcases l with _ | ⟨a, r⟩
  · simp
  rcases eq_or_ne r [] with rfl | hr
  · obtain ⟨-, -, hh, -, -⟩ := h
    intro b hb
    rcases List.mem_singleton.mp hb with rfl
    exact alpha_lt_128 (hh b rfl)
  · obtain ⟨L, x, rfl⟩ := exists_concat r hr
    obtain ⟨h1, h2, h3, h4⟩ := (labelSpec_concat a L x).mp h
    intro b hb
    rcases List.mem_cons.mp hb with rfl | hb2
    · exact alpha_lt_128 h2
    · rcases List.mem_append.mp hb2 with hb3 | hb3
      · exact ldh_lt_128 (h3 b hb3)
      · rcases List.mem_singleton.mp hb3 with rfl
        exact alnum_lt_128 h4

theorem utf8Valid_of_ascii : ∀ l : List Nat, (∀ b ∈ l, b < 128) → Name.utf8Valid l = true := by
  intro l
  induction l with
  | nil => intro; rfl
  | cons b r ih =>
    intro h
    have hb : b < 128 := h b (by simp)
    have he : Name.utf8Valid (b :: r) = Name.utf8Valid r := by
      unfold Name.utf8Valid
      simp only [Name.utf8Go]
      rw [if_pos hb]
    rw [he]
    exact ih (fun c hc => h c (by simp [hc]))

theorem parse_label_ok_eq {bytes s : List Nat} (h : Name.parse_label bytes = .ok s) :
    s = bytes := by
  unfold Name.parse_label at h
  repeat' split at h
  all_goals first
    | exact Except.noConfusion h
    | exact (Except.ok.inj h).symm

theorem parse_label_ok_label {bytes s : List Nat} (h : Name.parse_label bytes = .ok s) :
    DomainMod.bytes_are_label bytes = true := by
  simp only [Name.parse_label] at h
  by_cases hu : Name.utf8Valid bytes = false
  · rw [if_pos hu] at h
    exact Except.noConfusion h
  rw [if_neg hu] at h
  by_cases h1 : bytes.length = 0
  · rw [if_pos h1] at h
    exact Except.noConfusion h
  rw [if_neg h1] at h
  by_cases h2 : bytes.length > Name.MAX_LABEL_LENGTH
  · rw [if_pos h2] at h
    exact Except.noConfusion h
  rw [if_neg h2] at h
  simp only [DomainMod.bytes_are_label]
  rw [if_neg (by unfold DomainMod.MAX_LABEL_LENGTH; unfold Name.MAX_LABEL_LENGTH at h2; omega)]
  by_cases hrest : (bytes.drop 1).length = 0
  · rw [if_pos hrest] at h
    rw [if_pos hrest]
    by_cases ha : isAsciiAlphabetic ((bytes.take 1).getD 0 0) = true
    · exact ha
    · rw [if_neg ha] at h
      exact Except.noConfusion h
  · rw [if_neg hrest] at h
    rw [if_neg hrest]
    by_cases hc : (isAsciiAlphabetic ((bytes.take 1).getD 0 0) &&
        (((bytes.drop 1).take ((bytes.drop 1).length - 1)).length == 0 ||
          Name.bytes_are_ldh_str ((bytes.drop 1).take ((bytes.drop 1).length - 1))) &&
        (((bytes.drop 1).drop ((bytes.drop 1).length - 1)).length == 0 ||
          isAsciiAlphanumeric (((bytes.drop 1).drop ((bytes.drop 1).length - 1)).getD 0 0))) = true
    · have hsame : Name.bytes_are_ldh_str = DomainMod.bytes_are_ldh_str := rfl
      rw [hsame] at hc
      exact hc
    · rw [if_neg hc] at h
      exact Except.noConfusion h

theorem parse_label_of_label {bytes : List Nat} (h : DomainMod.bytes_are_label bytes = true) :
    Name.parse_label bytes = .ok bytes := by
  have hspec := (bytes_are_label_iff bytes).mp h
  have hu : Name.utf8Valid bytes = true := utf8Valid_of_ascii _ (labelSpec_lt_128 hspec)
  obtain ⟨hl1, hl2, -, -, -⟩ := hspec
  simp only [Name.parse_label]
  rw [hu]
  rw [if_neg (by simp), if_neg (by omega),
    if_neg (by unfold Name.MAX_LABEL_LENGTH; omega)]
  rcases bytes with _ | ⟨a, r⟩
  · simp at hl1
  rcases eq_or_ne r [] with rfl | hr
  · have ha : isAsciiAlphabetic a = true := by rwa [bytes_are_label_singleton] at h
    simp [ha]
  · obtain ⟨L, x, rfl⟩ := exists_concat r hr
    rw [bytes_are_label_concat] at h
    simp only [Bool.and_eq_true, decide_eq_true_eq] at h
    obtain ⟨hlen, ⟨ha, hldh⟩, hx⟩ := h
    have hd : (a :: (L ++ [x])).drop 1 = L ++ [x] := rfl
    have ht : (a :: (L ++ [x])).take 1 = [a] := rfl
    rw [hd, ht]
    have hlen2 : (L ++ [x]).length = L.length + 1 := by simp
    rw [hlen2]
    rw [if_neg (by omega)]
    have h4 : L.length + 1 - 1 = L.length := by omega
    rw [h4, List.take_left, List.drop_left]
    have hsame : Name.bytes_are_ldh_str = DomainMod.bytes_are_ldh_str := rfl
    simp [hsame, ha, hldh, hx]

theorem parse_label_ok_iff (bytes s : List Nat) :
    Name.parse_label bytes = .ok s ↔ (s = bytes ∧ DomainMod.bytes_are_label bytes = true) := by
  constructor
  · intro h
    exact ⟨parse_label_ok_eq h, parse_label_ok_label h⟩
  · rintro ⟨rfl, h⟩
    exact parse_label_of_label h

/-- Claim C6: the label predicate is true iff the length is in `[1, 63]`,
the first byte is a letter, the last byte is a letter or digit, and every
interior byte is a letter, digit, or hyphen; a single byte is valid iff it
is a letter; the predicate is false for lengths 0 and 64, true for a valid
63-byte input. `parse_label` (the wire-side label decoder) succeeds on
exactly the same byte sequences, returning them unchanged. -/
theorem c6_label_grammar :
    (∀ l : List Nat, DomainMod.bytes_are_label l = true ↔ labelSpec l) ∧
    (∀ l s : List Nat,
      Name.parse_label l = .ok s ↔ (s = l ∧ DomainMod.bytes_are_label l = true)) ∧
    (∀ b : Nat, DomainMod.bytes_are_label [b] = isAsciiAlphabetic b) ∧
    DomainMod.bytes_are_label [] = false ∧
    DomainMod.bytes_are_label (97 :: List.replicate 63 98) = false ∧
    DomainMod.bytes_are_label (97 :: List.replicate 62 98) = true :=
  ⟨bytes_are_label_iff, parse_label_ok_iff, bytes_are_label_singleton,
    by decide, by decide, by decide⟩

theorem splitOnByte_ne_nil (sep : Nat) : ∀ l : List Nat, Name.splitOnByte sep l ≠ [] := by
  intro l
  induction l with
  | nil => simp [Name.splitOnByte]
  | cons b rest ih =>
    simp only [Name.splitOnByte]
    by_cases hb : b = sep
    · simp [hb]
    · rw [if_neg hb]
      cases hs : Name.splitOnByte sep rest with
      | nil => simp
      | cons p ps => simp

theorem joinSep_splitOnByte (sep : Nat) :
    ∀ l : List Nat, Name.joinSep sep (Name.splitOnByte sep l) = l := by
  intro l
  induction l with
  | nil => rfl
  | cons b rest ih =>
    by_cases hb : b = sep
    · subst hb
      cases hs : Name.splitOnByte b rest with
      | nil => exact absurd hs (splitOnByte_ne_nil b rest)
      | cons s ss =>
        rw [hs] at ih
        simp only [Name.splitOnByte, if_pos rfl, hs]
        show [] ++ b :: Name.joinSep b (s :: ss) = b :: rest
        rw [List.nil_append]
        exact congrArg (fun t => b :: t) ih
    · cases hs : Name.splitOnByte sep rest with
      | nil => exact absurd hs (splitOnByte_ne_nil sep rest)
      | cons p ps =>
        rw [hs] at ih
        simp only [Name.splitOnByte, if_neg hb, hs]
        cases ps with
        | nil =>
          show b :: p = b :: rest
          have hp : p = rest := ih
          rw [hp]
        | cons q qs =>
          show (b :: p) ++ sep :: Name.joinSep sep (q :: qs) = b :: rest
          rw [List.cons_append]
          exact congrArg (fun t => b :: t) ih

theorem collectLabels_ok_eq :
    ∀ segs out : List (List Nat), Name.collectLabels segs = .ok out → out = segs := by
  intro segs
  induction segs with
  | nil =>
    intro out h
    simp only [Name.collectLabels] at h
    exact (Except.ok.inj h).symm
  | cons seg rest ih =>
    intro out h
    simp only [Name.collectLabels] at h
    cases hp : Name.parse_label seg with
    | error e =>
      rw [hp] at h
      exact Except.noConfusion h
    | ok s =>
      rw [hp] at h
      cases hc : Name.collectLabels rest with
      | error e =>
        rw [hc] at h
        exact Except.noConfusion h
      | ok ss =>
        rw [hc] at h
        rw [(Except.ok.inj h).symm, parse_label_ok_eq hp, ih ss hc]

theorem collectLabels_ok_all :
    ∀ segs out : List (List Nat), Name.collectLabels segs = .ok out →
      ∀ s ∈ segs, Name.parse_label s = .ok s := by
  intro segs
  induction segs with
  | nil =>
    intro out h s hs
    simp at hs
  | cons seg rest ih =>
    intro out h s hs
    simp only [Name.collectLabels] at h
    cases hp : Name.parse_label seg with
    | error e =>
      rw [hp] at h
      exact Except.noConfusion h
    | ok s0 =>
      rw [hp] at h
      cases hc : Name.collectLabels rest with
      | error e =>
        rw [hc] at h
        exact Except.noConfusion h
      | ok ss =>
        rcases List.mem_cons.mp hs with rfl | hs2
        · have he : s0 = s := parse_label_ok_eq hp
          rw [he] at hp
          exact hp
        · exact ih ss hc s hs2

theorem collectLabels_first_error :
    ∀ (pre : List (List Nat)) (s : List Nat) (rest : List (List Nat))
      (e : Name.TryFromError),
      (∀ t ∈ pre, ∃ o, Name.parse_label t = .ok o) →
      Name.parse_label s = .error e →
      Name.collectLabels (pre ++ s :: rest) = .error e := by
  intro pre
  induction pre with
  | nil =>
    intro s rest e _ hs
    simp only [List.nil_append, Name.collectLabels, hs]
  | cons t pre2 ih =>
    intro s rest e hpre hs
    obtain ⟨o, ho⟩ := hpre t (by simp)
    simp only [List.cons_append, Name.collectLabels, ho]
    rw [List.append_eq, ih s rest e (fun u hu => hpre u (by simp [hu])) hs]

/-- Claim C7: rendering a `Domain` joins its labels with the `.` separator,
and rendering is a left inverse of parsing: every byte input on which
`Domain::try_from` succeeds renders back to exactly the original input
(the string overload delegates to the byte one). -/
theorem c7_render_parse_round_trip :
    ∀ (value : List Nat) (d : Name.Domain),
      Name.Domain.tryFromBytes value = .ok d → d.render = value := by
  intro value d h
  simp only [Name.Domain.tryFromBytes] at h
  by_cases he : value.isEmpty
  · rw [if_pos he] at h
    exact Except.noConfusion h
  · rw [if_neg he] at h
    cases hc : Name.collectLabels (Name.splitOnByte Name.LABEL_SEPARATOR value) with
    | error e =>
      rw [hc] at h
      exact Except.noConfusion h
    | ok labels =>
      rw [hc] at h
      rw [(Except.ok.inj h).symm]
      simp only [Name.Domain.render]
      rw [collectLabels_ok_eq _ _ hc]
      exact joinSep_splitOnByte _ value

/-- Witness for C7: parsing the single-letter input `"a"` succeeds and
renders back to it. -/
theorem c7_render_parse_round_trip_witness :
    Name.Domain.tryFromBytes [97] = .ok ⟨[[97]]⟩ ∧
    Name.Domain.render ⟨[[97]]⟩ = [97] :=
  ⟨by decide, c7_render_parse_round_trip [97] ⟨[[97]]⟩ (by decide)⟩

/-- Counterexample for C8: the empty input fails with `DomainEmpty`
(checked before splitting), not with the `LabelEmpty` error the claim
asserts for it. -/
theorem c8_empty_input_counterexample :
    Name.Domain.tryFromBytes [] = .error .DomainEmpty ∧
    Name.TryFromError.DomainEmpty ≠ Name.TryFromError.LabelEmpty :=
  ⟨by decide, by decide⟩

/-- Claim C8 (amended): domain parsing splits the input on `.`, validates
each segment, and fails on the first invalid segment with its per-label
error; a leading dot always fails with `LabelEmpty`, and trailing or double
dots fail with `LabelEmpty` when the preceding segments are valid; the
empty input fails with `DomainEmpty` before splitting (splitting itself
would still yield one empty segment). -/
theorem c8_split_validate_first_error :
    (∀ (value : List Nat) (pre : List (List Nat)) (s : List Nat)
        (rest : List (List Nat)) (e : Name.TryFromError),
      value ≠ [] →
      Name.splitOnByte Name.LABEL_SEPARATOR value = pre ++ s :: rest →
      (∀ t ∈ pre, ∃ o, Name.parse_label t = .ok o) →
      Name.parse_label s = .error e →
      Name.Domain.tryFromBytes value = .error e) ∧
    (∀ rest : List Nat,
      Name.Domain.tryFromBytes (Name.LABEL_SEPARATOR :: rest) = .error .LabelEmpty) ∧
    Name.Domain.tryFromBytes [102, 111, 111, 46] = .error .LabelEmpty ∧
    Name.Domain.tryFromBytes [99, 100, 110, 46, 46, 99, 111, 109] = .error .LabelEmpty ∧
    Name.Domain.tryFromBytes [] = .error .DomainEmpty ∧
    Name.splitOnByte Name.LABEL_SEPARATOR [] = [[]] := by
  have hgen : ∀ (value : List Nat) (pre : List (List Nat)) (s : List Nat)
      (rest : List (List Nat)) (e : Name.TryFromError),
      value ≠ [] →
      Name.splitOnByte Name.LABEL_SEPARATOR value = pre ++ s :: rest →
      (∀ t ∈ pre, ∃ o, Name.parse_label t = .ok o) →
      Name.parse_label s = .error e →
      Name.Domain.tryFromBytes value = .error e := by
    intro value pre s rest e hne hsplit hpre hs
    simp only [Name.Domain.tryFromBytes]
    rw [if_neg (by simp [List.isEmpty_iff, hne])]
    rw [hsplit, collectLabels_first_error pre s rest e hpre hs]
  refine ⟨hgen, ?_, by decide, by decide, by decide, rfl⟩
  intro rest
  apply hgen (Name.LABEL_SEPARATOR :: rest) [] []
    (Name.splitOnByte Name.LABEL_SEPARATOR rest) .LabelEmpty
    (by simp) (by simp [Name.splitOnByte]) (by simp) (by decide)

/-- Witness for C8 at the concrete trailing-dot input `"foo."`: the split
ends in an empty segment, the preceding segment is a valid label, and the
parse fails with `LabelEmpty`. -/
theorem c8_split_validate_first_error_witness :
    Name.splitOnByte Name.LABEL_SEPARATOR [102, 111, 111, 46] =
      [[102, 111, 111]] ++ [] :: [] ∧
    Name.parse_label [] = .error .LabelEmpty ∧
    Name.Domain.tryFromBytes [102, 111, 111, 46] = .error .LabelEmpty := by
  refine ⟨by decide, by decide, ?_⟩
  exact c8_split_validate_first_error.1 [102, 111, 111, 46] [[102, 111, 111]] [] []
    .LabelEmpty (by decide) (by decide)
    (by
      intro t ht
      rcases List.mem_singleton.mp ht with rfl
      exact ⟨[102, 111, 111], by decide⟩)
    (by decide)

/-! Helper lemmas: the question decoder's name-reading loop. -/

theorem add_label_ok {d d2 : Name.Domain} {bytes : List Nat}
    (h : d.add_label bytes = .ok d2) :
    d2.labels = d.labels ++ [bytes] ∧ DomainMod.bytes_are_label bytes = true := by
  simp only [Name.Domain.add_label] at h
  cases hp : Name.parse_label bytes with
  | error e =>
    rw [hp] at h
    exact Except.noConfusion h
  | ok s =>
    simp only [hp] at h
    have hs := parse_label_ok_eq hp
    subst hs
    exact ⟨(congrArg Name.Domain.labels (Except.ok.inj h)).symm, parse_label_ok_label hp⟩

theorem questionLoop_frozen (msg : List Nat) :
    ∀ (fuel pos qpos br : Nat) (d d' : Name.Domain) (q' b' : Nat),
      Message.questionLoop msg fuel pos qpos true br d = some (.ok d' q' b') →
      q' = qpos ∧ b' = br := by
  intro fuel
  induction fuel with
  | zero =>
    intro pos qpos br d d' q' b' h
    simp [Message.questionLoop] at h
  | succ n ih =>
    intro pos qpos br d d' q' b' h
    simp only [Message.questionLoop] at h
    cases hm : msg[pos]? with
    | none => simp [hm] at h
    | some b =>
      simp only [hm] at h
      by_cases hp : (b &&& 0b11000000 == 0b11000000) = true
      · rw [if_pos hp] at h
        cases hm2 : msg[pos + 1]? with
        | none => simp [hm2] at h
        | some b2 =>
          simp only [hm2] at h
          exact ih _ _ _ _ _ _ _ h
      · rw [if_neg hp] at h
        by_cases hz : (b == 0) = true
        · rw [if_pos hz] at h
          simp only [Option.some.injEq, Message.LoopResult.ok.injEq] at h
          obtain ⟨-, hq, hb⟩ := h
          exact ⟨hq.symm, hb.symm⟩
        · rw [if_neg hz] at h
          cases hs : Message.slice? msg (pos + 1) b with
          | none => simp [hs] at h
          | some sl =>
            simp only [hs] at h
            cases ha : d.add_label sl with
            | error e => simp [ha] at h
            | ok d2 =>
              simp only [ha] at h
              exact ih _ _ _ _ _ _ _ h

theorem questionLoop_linear (msg : List Nat) :
    ∀ (fuel pos qpos br : Nat) (d : Name.Domain) (k : Nat) (d' : Name.Domain) (q' b' : Nat),
      nameWireLen msg fuel pos = some k →
      Message.questionLoop msg fuel pos qpos false br d = some (.ok d' q' b') →
      b' = br + k ∧ q' = pos + k := by
  intro fuel
  induction fuel with
  | zero =>
    intro pos qpos br d k d' q' b' hw h
    simp [nameWireLen] at hw
  | succ n ih =>
    intro pos qpos br d k d' q' b' hw h
    simp only [nameWireLen] at hw
    simp only [Message.questionLoop] at h
    cases hm : msg[pos]? with
    | none => simp [hm] at hw
    | some b =>
      simp only [hm] at hw
      simp only [hm] at h
      by_cases hp : (b &&& 0b11000000 == 0b11000000) = true
      · rw [if_pos hp] at hw
        exact Option.noConfusion hw
      · rw [if_neg hp] at hw
        rw [if_neg hp] at h
        by_cases hz : (b == 0) = true
        · rw [if_pos hz] at hw
          rw [if_pos hz] at h
          have hk : k = 1 := (Option.some.inj hw).symm
          simp only [Option.some.injEq, Message.LoopResult.ok.injEq] at h
          obtain ⟨-, hq, hb⟩ := h
          have hq2 : pos + 1 = q' := hq
          have hb2 : br + 1 = b' := hb
          subst hk
          omega
        · rw [if_neg hz] at hw
          rw [if_neg hz] at h
          cases hw2 : nameWireLen msg n (pos + 1 + b) with
          | none => simp [hw2] at hw
          | some k2 =>
            simp only [hw2] at hw
            have hk : k = 1 + b + k2 := (Option.some.inj hw).symm
            cases hs : Message.slice? msg (pos + 1) b with
            | none => simp [hs] at h
            | some sl =>
              simp only [hs] at h
              cases ha : d.add_label sl with
              | error e => simp [ha] at h
              | ok d2 =>
                simp only [ha] at h
                have h2 : Message.questionLoop msg n (pos + 1 + b) qpos false
                    (br + 1 + b) d2 = some (.ok d' q' b') := h
                obtain ⟨hb, hq⟩ := ih (pos + 1 + b) qpos (br + 1 + b) d2 k2 d' q' b' hw2 h2
                omega

theorem questionLoop_labels (msg : List Nat) :
    ∀ (fuel pos qpos : Nat) (uc : Bool) (br : Nat) (d d' : Name.Domain) (q' b' : Nat),
      Message.questionLoop msg fuel pos qpos uc br d = some (.ok d' q' b') →
      (∀ lab ∈ d.labels, DomainMod.bytes_are_label lab = true) →
      ∀ lab ∈ d'.labels, DomainMod.bytes_are_label lab = true := by
  intro fuel
  induction fuel with
  | zero =>
    intro pos qpos uc br d d' q' b' h
    simp [Message.questionLoop] at h
  | succ n ih =>
    intro pos qpos uc br d d' q' b' h hd
    simp only [Message.questionLoop] at h
    cases hm : msg[pos]? with
    | none => simp [hm] at h
    | some b =>
      simp only [hm] at h
      by_cases hp : (b &&& 0b11000000 == 0b11000000) = true
      · rw [if_pos hp] at h
        cases hm2 : msg[pos + 1]? with
        | none => simp [hm2] at h
        | some b2 =>
          simp only [hm2] at h
          exact ih _ _ _ _ _ _ _ _ h hd
      · rw [if_neg hp] at h
        by_cases hz : (b == 0) = true
        · rw [if_pos hz] at h
          simp only [Option.some.injEq, Message.LoopResult.ok.injEq] at h
          obtain ⟨hdd, -, -⟩ := h
          rw [← hdd]
          exact hd
        · rw [if_neg hz] at h
          cases hs : Message.slice? msg (pos + 1) b with
          | none => simp [hs] at h
          | some sl =>
            simp only [hs] at h
            cases ha : d.add_label sl with
            | error e => simp [ha] at h
            | ok d2 =>
              simp only [ha] at h
              obtain ⟨hlab, hok⟩ := add_label_ok ha
              refine ih _ _ _ _ _ _ _ _ h ?_
              intro lab hl
              rw [hlab] at hl
              rcases List.mem_append.mp hl with hl2 | hl2
              · exact hd lab hl2
              · rcases List.mem_singleton.mp hl2 with rfl
                exact hok

theorem parse_question_decomp :
    ∀ (msg : List Nat) (offset fuel : Nat) (pd : Message.QuestionParseData),
      Message.parse_question msg offset fuel = some (.ok pd) →
      ∃ (dn : Name.Domain) (qpos br t0 t1 c0 c1 : Nat),
        Message.questionLoop msg fuel offset offset false 0 Name.Domain.new =
          some (.ok dn qpos br) ∧
        msg[qpos]? = some t0 ∧ msg[qpos + 1]? = some t1 ∧
        msg[qpos + 2]? = some c0 ∧ msg[qpos + 3]? = some c1 ∧
        pd.question.q_name = dn ∧
        pd.question.q_type = Message.QType.new (Message.u16_from_be t0 t1) ∧
        pd.question.q_class = Message.QClass.new (Message.u16_from_be c0 c1) ∧
        pd.bytes_read = br + 4 := by
  intro msg offset fuel pd h
  simp only [Message.parse_question] at h
  cases hl : Message.questionLoop msg fuel offset offset false 0 Name.Domain.new with
  | none => simp [hl] at h
  | some lr =>
    simp only [hl] at h
    cases lr with
    | oob => simp at h
    | err e => simp at h
    | ok dn qpos br =>
      cases h0 : msg[qpos]? with
      | none => simp [h0] at h
      | some t0 =>
        simp only [h0] at h
        cases h1 : msg[qpos + 1]? with
        | none => simp [h1] at h
        | some t1 =>
          simp only [h1] at h
          cases h2 : msg[qpos + 2]? with
          | none => simp [h2] at h
          | some c0 =>
            simp only [h2] at h
            cases h3 : msg[qpos + 2 + 1]? with
            | none => simp [h3] at h
            | some c1 =>
              simp only [h3] at h
              have hpd := (Message.ParseOutcome.ok.inj (Option.some.inj h)).symm
              subst hpd
              exact ⟨dn, qpos, br, t0, t1, c0, c1, rfl, h0, h1, h2, h3,
                rfl, rfl, rfl, rfl⟩

theorem questionLoop_selfPointer :
    ∀ (fuel qpos br : Nat) (uc : Bool) (d : Name.Domain),
      Message.questionLoop msgSelfPointer fuel 0 qpos uc br d = none := by
  intro fuel
  induction fuel with
  | zero => intro qpos br uc d; rfl
  | succ n ih =>
    intro qpos br uc d
    have hm : msgSelfPointer[0]? = some 192 := rfl
    simp only [Message.questionLoop, hm]
    rw [if_pos (by decide)]
    have hm2 : msgSelfPointer[0 + 1]? = some 0 := rfl
    simp only [hm2]
    have hptr : (((192 : Nat) &&& 0b00111111) <<< 8) ||| 0 = 0 := by decide
    rw [hptr]
    exact ih _ _ _ _

/-- Claim C1 (code bug, evaluated at failing inputs): the decoder performs
no bounds checks on input-derived indices, so the out-of-bounds branch is
reachable: the per-iteration byte read (empty buffer), the label slice
(announced length 3 with 1 content byte), the QTYPE read (name only), and a
pointer target beyond the buffer all reach it — the Rust code panics there.
The never-writes half of the claim holds trivially in this pure embedding. -/
theorem c1_out_of_bounds_reachable :
    Message.parse_question [] 0 5 = some .oob ∧
    Message.parse_question [3, 97] 0 5 = some .oob ∧
    Message.parse_question [0] 0 5 = some .oob ∧
    Message.parse_question [0b11000000, 10, 0] 0 5 = some .oob :=
  ⟨by decide, by decide, by decide, by decide⟩

/-- Claim C2: `bytes_read` measures consumption only from the caller's
original linear position: with no compression it is the uncompressed wire
length of the name plus 4 (17 for the `example.com` fixture), and entering
compression freezes the counter, so bytes at pointer targets are never
counted (the pointer fixture and the two-chained-pointers fixture both
yield 11); once the compression flag is set the loop can no longer change
`bytes_read` or `question_pos`. -/
theorem c2_bytes_read_linear :
    (Message.parse_question msgPlain 0 32 =
      some (.ok ⟨⟨⟨[exampleBytes, comBytes]⟩, Message.QType.new 1,
        Message.QClass.new 1⟩, 17⟩)) ∧
    (Message.parse_question msgPointer 16 32 =
      some (.ok ⟨⟨⟨[testBytes, exampleBytes, comBytes]⟩, Message.QType.new 1,
        Message.QClass.new 1⟩, 11⟩)) ∧
    (Message.parse_question msgNested 15 32 =
      some (.ok ⟨⟨⟨[testBytes, exampleBytes, comBytes]⟩, Message.QType.new 1,
        Message.QClass.new 1⟩, 11⟩)) ∧
    (∀ (msg : List Nat) (offset fuel n : Nat) (pd : Message.QuestionParseData),
      nameWireLen msg fuel offset = some n →
      Message.parse_question msg offset fuel = some (.ok pd) →
      pd.bytes_read = n + 4) ∧
    (∀ (msg : List Nat) (fuel pos qpos br : Nat) (d d' : Name.Domain) (q' b' : Nat),
      Message.questionLoop msg fuel pos qpos true br d = some (.ok d' q' b') →
      q' = qpos ∧ b' = br) := by
  refine ⟨by decide, by decide, by decide, ?_, fun msg fuel => questionLoop_frozen msg fuel⟩
  intro msg offset fuel n pd hw hp
  obtain ⟨dn, qpos, br, t0, t1, c0, c1, hl, -, -, -, -, -, -, -, hbr⟩ :=
    parse_question_decomp msg offset fuel pd hp
  obtain ⟨hb, -⟩ := questionLoop_linear msg fuel offset offset 0 Name.Domain.new n dn qpos br hw hl
  omega

/-- Witness for C2: on the uncompressed `example.com` fixture the name's
wire length is 13 and the parse reads 13 + 4 bytes. -/
theorem c2_bytes_read_linear_witness :
    nameWireLen msgPlain 32 0 = some 13 ∧
    Message.parse_question msgPlain 0 32 =
      some (.ok ⟨⟨⟨[exampleBytes, comBytes]⟩, Message.QType.new 1,
        Message.QClass.new 1⟩, 17⟩) ∧
    (17 : Nat) = 13 + 4 := by
  refine ⟨by decide, by decide, ?_⟩
  have h := c2_bytes_read_linear.2.2.2.1 msgPlain 0 32 13
    ⟨⟨⟨[exampleBytes, comBytes]⟩, Message.QType.new 1, Message.QClass.new 1⟩, 17⟩
    (by decide) (by decide)
  exact h

/-- Claim C5: in every successful `parse_question` call, QTYPE is read as
the big-endian 16-bit integer at the post-name cursor `question_pos` and
QCLASS at the two bytes immediately after; each always adds 2 to
`bytes_read` (total = name-loop count + 4), whether or not compression was
entered. -/
theorem c5_qtype_qclass_reads :
    ∀ (msg : List Nat) (offset fuel : Nat) (pd : Message.QuestionParseData),
      Message.parse_question msg offset fuel = some (.ok pd) →
      ∃ (dn : Name.Domain) (qpos br t0 t1 c0 c1 : Nat),
        Message.questionLoop msg fuel offset offset false 0 Name.Domain.new =
          some (.ok dn qpos br) ∧
        msg[qpos]? = some t0 ∧ msg[qpos + 1]? = some t1 ∧
        msg[qpos + 2]? = some c0 ∧ msg[qpos + 3]? = some c1 ∧
        pd.question.q_name = dn ∧
        pd.question.q_type = Message.QType.new (Message.u16_from_be t0 t1) ∧
        pd.question.q_class = Message.QClass.new (Message.u16_from_be c0 c1) ∧
        pd.bytes_read = br + 4 :=
  parse_question_decomp

/-- Witness for C5 at the `example.com` fixture. -/
theorem c5_qtype_qclass_reads_witness :
    Message.parse_question msgPlain 0 32 =
      some (.ok ⟨⟨⟨[exampleBytes, comBytes]⟩, Message.QType.new 1,
        Message.QClass.new 1⟩, 17⟩) ∧
    (∃ (dn : Name.Domain) (qpos br t0 t1 c0 c1 : Nat),
      Message.questionLoop msgPlain 32 0 0 false 0 Name.Domain.new =
        some (.ok dn qpos br) ∧
      msgPlain[qpos]? = some t0 ∧ msgPlain[qpos + 1]? = some t1 ∧
      msgPlain[qpos + 2]? = some c0 ∧ msgPlain[qpos + 3]? = some c1 ∧
      (⟨⟨⟨[exampleBytes, comBytes]⟩, Message.QType.new 1, Message.QClass.new 1⟩,
        17⟩ : Message.QuestionParseData).question.q_name = dn ∧
      (⟨⟨⟨[exampleBytes, comBytes]⟩, Message.QType.new 1, Message.QClass.new 1⟩,
        17⟩ : Message.QuestionParseData).question.q_type =
        Message.QType.new (Message.u16_from_be t0 t1) ∧
      (⟨⟨⟨[exampleBytes, comBytes]⟩, Message.QType.new 1, Message.QClass.new 1⟩,
        17⟩ : Message.QuestionParseData).question.q_class =
        Message.QClass.new (Message.u16_from_be c0 c1) ∧
      (⟨⟨⟨[exampleBytes, comBytes]⟩, Message.QType.new 1, Message.QClass.new 1⟩,
        17⟩ : Message.QuestionParseData).bytes_read = br + 4) :=
  ⟨by decide,
    c5_qtype_qclass_reads msgPlain 0 32
      ⟨⟨⟨[exampleBytes, comBytes]⟩, Message.QType.new 1, Message.QClass.new 1⟩, 17⟩
      (by decide)⟩

/-- Counterexample for C9: `parse_question` on a name consisting of a lone
terminator byte succeeds and returns a `Domain` with an empty label list. -/
theorem c9_empty_domain_counterexample :
    Message.parse_question [0, 0, 1, 0, 1] 0 5 =
      some (.ok ⟨⟨⟨[]⟩, Message.QType.new 1, Message.QClass.new 1⟩, 5⟩) := by
  decide

/-- Claim C9 (amended): every `Domain` built by whole-slice parsing is
non-empty and all its labels satisfy the label grammar; every `Domain`
returned by `parse_question`'s incremental construction has all labels
satisfying the grammar, but may be empty (see the counterexample). -/
theorem c9_domain_label_validity :
    (∀ (value : List Nat) (d : Name.Domain),
      Name.Domain.tryFromBytes value = .ok d →
      d.labels ≠ [] ∧ ∀ lab ∈ d.labels, DomainMod.bytes_are_label lab = true) ∧
    (∀ (msg : List Nat) (offset fuel : Nat) (pd : Message.QuestionParseData),
      Message.parse_question msg offset fuel = some (.ok pd) →
      ∀ lab ∈ pd.question.q_name.labels, DomainMod.bytes_are_label lab = true) := by
  constructor
  · intro value d h
    simp only [Name.Domain.tryFromBytes] at h
    by_cases he : value.isEmpty
    · rw [if_pos he] at h
      exact Except.noConfusion h
    · rw [if_neg he] at h
      cases hc : Name.collectLabels (Name.splitOnByte Name.LABEL_SEPARATOR value) with
      | error e =>
        rw [hc] at h
        exact Except.noConfusion h
      | ok labels =>
        rw [hc] at h
        rw [(Except.ok.inj h).symm]
        have heq := collectLabels_ok_eq _ _ hc
        constructor
        · show labels ≠ []
          rw [heq]
          exact splitOnByte_ne_nil Name.LABEL_SEPARATOR value
        · intro lab hlab
          have hlab2 : lab ∈ labels := hlab
          rw [heq] at hlab2
          exact parse_label_ok_label (collectLabels_ok_all _ _ hc lab hlab2)
  · intro msg offset fuel pd h
    obtain ⟨dn, qpos, br, t0, t1, c0, c1, hl, -, -, -, -, hname, -, -, -⟩ :=
      parse_question_decomp msg offset fuel pd h
    rw [hname]
    refine questionLoop_labels msg fuel offset offset false 0 Name.Domain.new dn qpos br hl ?_
    intro lab hlab
    simp [Name.Domain.new] at hlab

/-- Witness for C9 at the single-letter domain `"a"`. -/
theorem c9_domain_label_validity_witness :
    Name.Domain.tryFromBytes [97] = .ok ⟨[[97]]⟩ ∧
    ((⟨[[97]]⟩ : Name.Domain).labels ≠ [] ∧
      ∀ lab ∈ (⟨[[97]]⟩ : Name.Domain).labels, DomainMod.bytes_are_label lab = true) :=
  ⟨by decide, c9_domain_label_validity.1 [97] ⟨[[97]]⟩ (by decide)⟩

/-- Claim C10: no cycle detection exists for compression pointer chains:
on the 2-byte buffer whose byte pair at offset 0 is a pointer targeting
offset 0 itself, the name-reading loop never terminates — for every amount
of fuel, `parse_question` exhausts it without producing any outcome. -/
theorem c10_pointer_loop_diverges :
    ∀ fuel : Nat, Message.parse_question msgSelfPointer 0 fuel = none := by
  intro fuel
  simp only [Message.parse_question, questionLoop_selfPointer]

end DnsTools
